import Mathlib

/-!
Verification of the dependency-check utility (`src/dependency_check.py`).

The Python module has two pieces of logic: `compare_versions`, a version
classifier, and `compare_packages`, which parses requirement lines and
accumulates report rows.  Both are embedded below as executable Lean
functions over `String`/`List Char`, with Python exceptions modelled by
`Except PyErr`.  The external pip query (a subprocess) is abstracted as a
function `latest_of : String → String` giving the version string computed
for a package name (the literal `"n/a"` for a failed lookup, mirroring
lines 95-103 of the source).
-/

namespace DependencyCheck

/-- Python exceptions that the embedded code can raise.  `indexError` models a
list index out of range, `keyError` a missing dictionary key.  The
constructor `malformedRequirementError` is modelled from the spec: the spec
names a `MalformedRequirementError`, but no such exception class exists
anywhere in the source; it is included only so that its absence from the
code's behaviour is statable. -/
inductive PyErr where
  | indexError
  | keyError
  | malformedRequirementError (line : String)
deriving DecidableEq

/-- Worker for Python `str.split(sep)` with non-empty separator
`s0 :: srest`: scan left to right, splitting at each non-overlapping
occurrence of the separator; `acc` holds the (reversed) characters of the
current field.  The recursion is driven by a fuel argument so that it is
structural (and hence kernel-reducible); the out-of-fuel branch is
unreachable whenever the fuel is at least the length of the input, which is
how `pySplit` calls it. -/
def splitGo (s0 : Char) (srest : List Char) : Nat → List Char → List Char → List (List Char)
  | _, [], acc => [acc.reverse]
  | 0, c :: cs, acc => [acc.reverse ++ c :: cs]
  | fuel + 1, c :: cs, acc =>
    if (s0 :: srest).isPrefixOf (c :: cs) then
      acc.reverse :: splitGo s0 srest fuel (cs.drop srest.length) []
    else
      splitGo s0 srest fuel cs (c :: acc)

/-- Python `s.split(sep)` for a non-empty separator (the source only splits
on `"=="`, `" @ "`, `"."` and `"/"`). -/
def pySplit (s : String) (sep : String) : List String :=
  match sep.data with
  | [] => [s]
  | s0 :: srest => (splitGo s0 srest s.data.length s.data []).map (fun l => String.mk l)

/-- Python `sub in s` (substring containment). -/
def pyContains (s sub : String) : Bool :=
  decide (sub.data <:+: s.data)

/-- Python `s.startswith(pre)`. -/
def pyStartswith (s pre : String) : Bool :=
  pre.data.isPrefixOf s.data

/-- The `sem_version` dictionary lookup `sem_version[idx]` of
`compare_versions` (source lines 39-43 and 47): keys 0, 1, 2 map to the
category names; any other index raises a `KeyError`. -/
def sem_version (idx : Nat) : Except PyErr String :=
  match idx with
  | 0 => Except.ok "major"
  | 1 => Except.ok "minor"
  | 2 => Except.ok "patch"
  | _ => Except.error PyErr.keyError

/-- The `for idx, (current, latest) in enumerate(zip(...))` loop of
`compare_versions` (source lines 45-48): walk both component lists in
lock-step, return `sem_version[idx]` at the first differing pair, and fall
through to `'n/a'` when either list is exhausted. -/
def cvLoop : List String → List String → Nat → Except PyErr String
  | [], _, _ => Except.ok "n/a"
  | _ :: _, [], _ => Except.ok "n/a"
  | c :: cs, l :: ls, idx => if c ≠ l then sem_version idx else cvLoop cs ls (idx + 1)

/-- `compare_versions` (source lines 24-48). -/
def compare_versions (current_version latest_version : String) : Except PyErr String :=
  if current_version = "n/a" ∨ latest_version = "n/a" then Except.ok "n/a"
  else if current_version = latest_version then Except.ok "match"
  else cvLoop (pySplit current_version ".") (pySplit latest_version ".") 0

deriving instance DecidableEq for Except

/-!
The regex of source lines 80-84: the pattern is built from the package name
by `package_info[0].replace('-', '[\-_]')` followed by a literal hyphen and
the captured group of three dot-separated digit runs, and searched with
`re.IGNORECASE`.  The `replace` step is fused into the character matcher:
a `'-'` of the name compiles to the class matching `'-'` or `'_'`; every
other name character is matched literally up to ASCII case.  (This
interpreter is faithful for names whose characters are regex-literal, i.e.
alphanumeric, `'-'` or `'_'`; theorems about it carry that restriction.)
-/

/-- Match one pattern character derived from the package name against one
text character, case-insensitively; a name hyphen matches `-` or `_`. -/
def matchClassChar (p c : Char) : Bool :=
  if p = '-' then c = '-' || c = '_' else p.toLower = c.toLower

/-- Match the name part of the pattern at the head of the text, returning
the remaining text on success. -/
def matchName : List Char → List Char → Option (List Char)
  | [], rest => some rest
  | _ :: _, [] => none
  | p :: ps, c :: cs => if matchClassChar p c then matchName ps cs else none

/-- Maximal run of digits at the head of the text (the greedy regex token
would backtrack, but a shorter run can never be followed by the required
literal, so maximal munch is equivalent). -/
def takeDigits : List Char → List Char × List Char
  | [] => ([], [])
  | c :: cs =>
    if c.isDigit then
      let r := takeDigits cs
      (c :: r.1, r.2)
    else ([], c :: cs)

/-- Match the captured group `(\d+\.\d+\.\d+)` at the head of the text,
returning the characters of the group. -/
def matchSemVer (cs : List Char) : Option (List Char) :=
  match takeDigits cs with
  | ([], _) => none
  | (d1, '.' :: r2) =>
    match takeDigits r2 with
    | ([], _) => none
    | (d2, '.' :: r4) =>
      match takeDigits r4 with
      | ([], _) => none
      | (d3, _) => some (d1 ++ '.' :: d2 ++ '.' :: d3)
    | _ => none
  | _ => none

/-- Try the whole pattern (name, literal `-`, version group) at one
position of the text. -/
def matchAt (name cs : List Char) : Option (List Char) :=
  match matchName name cs with
  | some ('-' :: rest) => matchSemVer rest
  | _ => none

/-- `re.search`: try the pattern at each position from the left, returning
the first (leftmost) match. -/
def reSearchAux (name : List Char) : List Char → Option (List Char)
  | [] => matchAt name []
  | c :: cs =>
    match matchAt name (c :: cs) with
    | some v => some v
    | none => reSearchAux name cs

/-- Group 1 of `re.search(version_pattern, hay, re.IGNORECASE)` where
`version_pattern` is built from `name` as on source lines 80-81. -/
def reSearchVersion (name hay : List Char) : Option String :=
  (reSearchAux name hay).map (fun l => String.mk l)

/-- Python `ref.split('/')[-1]`: the final path segment of a reference. -/
def lastSegment (ref : String) : String :=
  (pySplit ref "/").getLastD ""

/-- Modelled from the spec (section 4.1): the declared version the spec
prescribes for a line `name @ reference` — the captured version group when
the pattern matches the reference, otherwise the final path segment.  The
spec states no guard on the shape of the reference; the source applies this
computation only when the reference starts with `file` or `http`. -/
def specDeclared (name ref : String) : String :=
  match reSearchVersion name.data ref.data with
  | some v => v
  | none => lastSegment ref

/-- One iteration of the `for package in tqdm(packages)` loop of
`compare_packages` (source lines 73-105), producing the report row appended
for this line.  Splitting, the `file`/`http` rewrite of `package_info[1]`,
and the final row `[*package_info, version, comparison]` follow the source;
accessing `package_info[1]` on a one-element split raises an `IndexError`.
The pip dry-run of lines 89-103 is abstracted by `latest_of`, which gives
the version string computed for the package name (`"n/a"` when the install
fails or its output has no version). -/
def processLine (latest_of : String → String) (package : String) : Except PyErr (List String) :=
  let package_info :=
    if pyContains package "==" then pySplit package "=="
    else pySplit package " @ "
  match package_info with
  | [] => Except.error PyErr.indexError
  | [_] => Except.error PyErr.indexError
  | p0 :: p1 :: rest =>
    let p1n :=
      if pyStartswith p1 "file" || pyStartswith p1 "http" then
        match reSearchVersion p0.data p1.data with
        | some v => v
        | none => lastSegment p1
      else p1
    let version := latest_of p0
    match compare_versions p1n version with
    | Except.error e => Except.error e
    | Except.ok comparison => Except.ok (p0 :: p1n :: (rest ++ [version, comparison]))

/-- Run an `Except`-valued function over a list, stopping at the first
error: the sequential accumulation of the source's `for` loop, where an
uncaught exception aborts the whole run. -/
def mapExcept (f : α → Except PyErr β) : List α → Except PyErr (List β)
  | [] => Except.ok []
  | a :: l =>
    match f a with
    | Except.error e => Except.error e
    | Except.ok b =>
      match mapExcept f l with
      | Except.error e => Except.error e
      | Except.ok bs => Except.ok (b :: bs)

/-- The fixed header row of `version_compare` (source lines 68-70). -/
def headerRow : List String := ["package", "version", "latest", "compare"]

/-- The `version_compare` list built by `compare_packages` (source lines
68-105): the header row followed by one row per manifest line, appended in
manifest order. -/
def compare_packages_report (latest_of : String → String)
    (packages : List String) : Except PyErr (List (List String)) :=
  match mapExcept (processLine latest_of) packages with
  | Except.error e => Except.error e
  | Except.ok rows => Except.ok (headerRow :: rows)

/-- Test fixture: a pip oracle for which every lookup fails (`"n/a"`). -/
def latestNA : String → String := fun _ => "n/a"

/-- Test fixture: the mocked index of the spec's end-to-end scenario. -/
def latestExample : String → String :=
  fun n => if n = "alpha" then "1.0.0" else if n = "beta" then "3.0.0" else "n/a"

/-- Join a list of fields with a separator: the left inverse of `splitGo`
used to state that splitting loses no characters. -/
def joinSep (sep : List Char) : List (List Char) → List Char
  | [] => []
  | [x] => x
  | x :: y :: xs => x ++ sep ++ joinSep sep (y :: xs)

/-! ## Helper lemmas -/

theorem cvLoop_ok_mem (cs : List String) :
    ∀ (ls : List String) (idx : Nat) (r : String),
    cvLoop cs ls idx = Except.ok r → r ∈ ["match", "major", "minor", "patch", "n/a"] := by
  induction cs with
  | nil =>
    intro ls idx r h
    simp only [cvLoop, Except.ok.injEq] at h
    simp [← h]
  | cons c cs ih =>
    intro ls idx r h
    cases ls with
    | nil =>
      simp only [cvLoop, Except.ok.injEq] at h
      simp [← h]
    | cons l ls =>
      by_cases hcl : c = l
      · simp only [cvLoop, hcl, ne_eq, not_true_eq_false, if_false, ite_false] at h
        · exact ih ls (idx + 1) r (by simpa using h)
      · simp only [cvLoop, ne_eq, hcl, not_false_eq_true, if_true, ite_true] at h
        rcases idx with _ | _ | _ | n <;>
          simp only [sem_version, Except.ok.injEq, reduceCtorEq] at h <;> simp [← h]

theorem cvLoop_firstDiff (i : Nat) :
    ∀ (cs ls : List String) (idx : Nat),
    (∀ j, j < i → cs[j]? = ls[j]?) →
    ∀ c l, cs[i]? = some c → ls[i]? = some l → c ≠ l →
    cvLoop cs ls idx = sem_version (idx + i) := by
  induction i with
  | zero =>
    intro cs ls idx _ c l hc hl hne
    cases cs with
    | nil => simp at hc
    | cons c0 cs =>
      cases ls with
      | nil => simp at hl
      | cons l0 ls =>
        simp only [List.getElem?_cons_zero, Option.some.injEq] at hc hl
        subst hc; subst hl
        simp [cvLoop, hne]
  | succ i ih =>
    intro cs ls idx hagree c l hc hl hne
    cases cs with
    | nil => simp at hc
    | cons c0 cs =>
      cases ls with
      | nil => simp at hl
      | cons l0 ls =>
        have h0 : some c0 = some l0 := by
          have := hagree 0 (Nat.succ_pos i)
          simpa using this
        have h0' : c0 = l0 := by simpa using h0
        rw [List.getElem?_cons_succ] at hc hl
        have hrec := ih cs ls (idx + 1)
          (fun j hj => by
            have := hagree (j + 1) (Nat.succ_lt_succ hj)
            simpa using this)
          c l hc hl hne
        calc cvLoop (c0 :: cs) (l0 :: ls) idx = cvLoop cs ls (idx + 1) := by
              simp [cvLoop, h0']
          _ = sem_version (idx + 1 + i) := hrec
          _ = sem_version (idx + (i + 1)) := by ring_nf

theorem cvLoop_allEq (cs : List String) :
    ∀ (ls : List String) (idx : Nat),
    (∀ p ∈ cs.zip ls, p.1 = p.2) → cvLoop cs ls idx = Except.ok "n/a" := by
  induction cs with
  | nil => intro ls idx _; simp [cvLoop]
  | cons c cs ih =>
    intro ls idx hall
    cases ls with
    | nil => simp [cvLoop]
    | cons l ls =>
      have hcl : c = l := hall (c, l) (by simp)
      have : cvLoop (c :: cs) (l :: ls) idx = cvLoop cs ls (idx + 1) := by
        simp [cvLoop, hcl]
      rw [this]
      exact ih ls (idx + 1) (fun p hp => hall p (by simp [List.zip_cons_cons, hp]))

theorem cvLoop_comm (cs : List String) :
    ∀ (ls : List String) (idx : Nat), cvLoop cs ls idx = cvLoop ls cs idx := by
  induction cs with
  | nil =>
    intro ls idx
    cases ls <;> simp [cvLoop]
  | cons c cs ih =>
    intro ls idx
    cases ls with
    | nil => simp [cvLoop]
    | cons l ls =>
      by_cases hcl : c = l
      · subst hcl
        simp only [cvLoop, ne_eq, not_true_eq_false, if_false, ite_false]
        simpa using ih ls (idx + 1)
      · simp [cvLoop, hcl, Ne.symm hcl]

theorem splitGo_sep_free (s0 : Char) (srest : List Char) (fuel : Nat) :
    ∀ (l acc : List Char), l.length ≤ fuel → ¬ (s0 :: srest) <:+: l →
    splitGo s0 srest fuel l acc = [acc.reverse ++ l] := by
  induction fuel with
  | zero =>
    intro l acc hlen _
    have : l = [] := List.length_eq_zero.mp (Nat.le_zero.mp hlen)
    subst this
    simp [splitGo]
  | succ fuel ih =>
    intro l acc hlen h
    cases l with
    | nil => simp [splitGo]
    | cons c cs =>
      rw [splitGo]
      rw [if_neg (fun hp => h ((List.isPrefixOf_iff_prefix.mp hp).isInfix))]
      rw [ih cs (c :: acc) (by simpa using hlen) (fun hi => h (List.infix_cons hi))]
      simp

theorem splitGo_ne_nil (s0 : Char) (srest : List Char) (fuel : Nat) :
    ∀ (l acc : List Char), splitGo s0 srest fuel l acc ≠ [] := by
  induction fuel with
  | zero =>
    intro l acc
    cases l <;> simp [splitGo]
  | succ fuel ih =>
    intro l acc
    cases l with
    | nil => simp [splitGo]
    | cons c cs =>
      rw [splitGo]
      by_cases hpre : (s0 :: srest).isPrefixOf (c :: cs) = true
      · rw [if_pos hpre]; simp
      · rw [if_neg hpre]; exact ih cs (c :: acc)

theorem joinSep_splitGo (s0 : Char) (srest : List Char) (fuel : Nat) :
    ∀ (l acc : List Char), l.length ≤ fuel →
    joinSep (s0 :: srest) (splitGo s0 srest fuel l acc) = acc.reverse ++ l := by
  induction fuel with
  | zero =>
    intro l acc hlen
    have : l = [] := List.length_eq_zero.mp (Nat.le_zero.mp hlen)
    subst this
    simp [splitGo, joinSep]
  | succ fuel ih =>
    intro l acc hlen
    cases l with
    | nil => simp [splitGo, joinSep]
    | cons c cs =>
      rw [splitGo]
      by_cases hpre : (s0 :: srest).isPrefixOf (c :: cs) = true
      · rw [if_pos hpre]
        have hpre' := List.isPrefixOf_iff_prefix.mp hpre
        have happ : (s0 :: srest) ++ List.drop srest.length cs = c :: cs := by
          have := List.prefix_iff_eq_append.mp hpre'
          simpa [List.drop_succ_cons] using this
        have hdlen : (List.drop srest.length cs).length ≤ fuel := by
          have h1 : cs.length ≤ fuel := by simpa using hlen
          simp only [List.length_drop]
          omega
        have ihd := ih (List.drop srest.length cs) [] hdlen
        cases hsg : splitGo s0 srest fuel (List.drop srest.length cs) [] with
        | nil => exact absurd hsg (splitGo_ne_nil s0 srest fuel _ _)
        | cons r rs =>
          rw [hsg] at ihd
          show joinSep (s0 :: srest) (acc.reverse :: r :: rs) = acc.reverse ++ c :: cs
          rw [joinSep]
          rw [ihd]
          simp only [List.reverse_nil, List.nil_append]
          rw [← happ]
          simp
      · rw [if_neg hpre]
        rw [ih cs (c :: acc) (by simpa using hlen) ]
        simp

theorem pySplit_data_cons (s sep : String) (s0 : Char) (srest : List Char)
    (hd : sep.data = s0 :: srest) :
    pySplit s sep =
      (splitGo s0 srest s.data.length s.data []).map (fun l => String.mk l) := by
  unfold pySplit
  rw [hd]

theorem pySplit_eq_self_of_not_contains (s sep : String)
    (h : pyContains s sep = false) : pySplit s sep = [s] := by
  cases hd : sep.data with
  | nil =>
    unfold pySplit
    rw [hd]
  | cons s0 srest =>
    have hinf : ¬ (s0 :: srest) <:+: s.data := by
      have := of_decide_eq_false (by rw [pyContains, hd] at h; exact h)
      exact this
    rw [pySplit_data_cons s sep s0 srest hd]
    rw [splitGo_sep_free s0 srest s.data.length s.data [] (Nat.le_refl _) hinf]
    simp only [List.reverse_nil, List.nil_append, List.map_cons, List.map_nil]

theorem eq_append_of_pySplit_two (l f0 f1 sep : String)
    (hsep : sep.data ≠ []) (h : pySplit l sep = [f0, f1]) :
    l = f0 ++ sep ++ f1 := by
  cases hd : sep.data with
  | nil => exact absurd hd hsep
  | cons s0 srest =>
    rw [pySplit_data_cons l sep s0 srest hd] at h
    have hj := joinSep_splitGo s0 srest l.data.length l.data [] (Nat.le_refl _)
    cases hsg : splitGo s0 srest l.data.length l.data [] with
    | nil => exact absurd hsg (splitGo_ne_nil s0 srest _ _ _)
    | cons r rs =>
      rw [hsg] at h hj
      cases rs with
      | nil => simp at h
      | cons r2 rs2 =>
        cases rs2 with
        | nil =>
          simp only [List.map_cons, List.map_nil, List.cons.injEq, and_true] at h
          obtain ⟨h0, h1⟩ := h
          have hr : r = f0.data := by rw [← h0]
          have hr2 : r2 = f1.data := by rw [← h1]
          rw [joinSep, joinSep] at hj
          simp only [List.reverse_nil, List.nil_append] at hj
          apply String.ext
          rw [String.data_append, String.data_append, ← hj, hr, hr2, hd]
        | cons r3 rs3 => simp at h

theorem mapExcept_ok {α β : Type} (f : α → Except PyErr β) (l : List α) :
    ∀ (rs : List β), mapExcept f l = Except.ok rs →
    rs.length = l.length ∧
    ∀ i, i < l.length →
      ∃ a b, l[i]? = some a ∧ f a = Except.ok b ∧ rs[i]? = some b := by
  induction l with
  | nil =>
    intro rs h
    simp only [mapExcept, Except.ok.injEq] at h
    subst h
    simp
  | cons a l ih =>
    intro rs h
    rw [mapExcept] at h
    cases hfa : f a with
    | error e => rw [hfa] at h; simp at h
    | ok b =>
      rw [hfa] at h
      cases hml : mapExcept f l with
      | error e => rw [hml] at h; simp at h
      | ok bs =>
        rw [hml] at h
        simp only [Except.ok.injEq] at h
        subst h
        obtain ⟨hlen, hall⟩ := ih bs hml
        refine ⟨by simp [hlen], ?_⟩
        intro i hi
        cases i with
        | zero => exact ⟨a, b, by simp, hfa, by simp⟩
        | succ i =>
          obtain ⟨a1, b1, h1, h2, h3⟩ := hall i (by simpa using hi)
          exact ⟨a1, b1, by simpa using h1, h2, by simpa using h3⟩

/-! ## Claim theorems -/

/-- C7: if either argument of `compare_versions` is the sentinel `"n/a"`,
the result is `"n/a"`, regardless of the other argument and symmetrically
in both positions. -/
theorem c7_sentinel_na (a b : String) (h : a = "n/a" ∨ b = "n/a") :
    compare_versions a b = Except.ok "n/a" := by
  unfold compare_versions
  rw [if_pos h]

/-- C7 witness: the sentinel rule evaluated in both argument positions. -/
theorem c7_sentinel_na_witness :
    compare_versions "n/a" "1.2.3" = Except.ok "n/a" ∧
    compare_versions "1.2.3" "n/a" = Except.ok "n/a" :=
  ⟨c7_sentinel_na "n/a" "1.2.3" (Or.inl rfl), c7_sentinel_na "1.2.3" "n/a" (Or.inr rfl)⟩

/-- C8: for every string other than `"n/a"`, comparing it with itself gives
`"match"`. -/
theorem c8_reflexive_match (v : String) (h : v ≠ "n/a") :
    compare_versions v v = Except.ok "match" := by
  unfold compare_versions
  rw [if_neg (by simpa using h), if_pos rfl]

/-- C8 witness: the reflexivity rule at a concrete version. -/
theorem c8_reflexive_match_witness :
    ("1.2.3" : String) ≠ "n/a" ∧ compare_versions "1.2.3" "1.2.3" = Except.ok "match" :=
  ⟨by decide, c8_reflexive_match "1.2.3" (by decide)⟩

/-- C1 counterexample: `compare_versions` is not total — on two versions
with four dot-separated components whose first difference is at index 3,
the dictionary lookup `sem_version[3]` raises a `KeyError` instead of
returning one of the five classification values. -/
theorem c1_counterexample :
    compare_versions "1.2.3.4" "1.2.3.5" = Except.error PyErr.keyError := by decide

/-- C1 (amended): whenever `compare_versions` returns (rather than raising
`KeyError`), its result is one of the five classification values. -/
theorem c1_result_range (a b r : String) (h : compare_versions a b = Except.ok r) :
    r ∈ ["match", "major", "minor", "patch", "n/a"] := by
  unfold compare_versions at h
  by_cases h1 : a = "n/a" ∨ b = "n/a"
  · rw [if_pos h1] at h
    simp only [Except.ok.injEq] at h
    simp [← h]
  · rw [if_neg h1] at h
    by_cases h2 : a = b
    · rw [if_pos h2] at h
      simp only [Except.ok.injEq] at h
      simp [← h]
    · rw [if_neg h2] at h
      exact cvLoop_ok_mem _ _ _ _ h

/-- C1 witness: a returning call whose result is in the range. -/
theorem c1_result_range_witness :
    compare_versions "1.0.0" "2.0.0" = Except.ok "major" ∧
    "major" ∈ ["match", "major", "minor", "patch", "n/a"] :=
  ⟨by decide, c1_result_range "1.0.0" "2.0.0" "major" (by decide)⟩

/-- C3: for unequal non-sentinel versions, the first index `i < 3` at which
the dot-separated components differ determines the classification —
`major` for 0, `minor` for 1, `patch` for 2. -/
theorem c3_first_diff (a b : String) (i : Nat) (hi : i < 3)
    (ha : a ≠ "n/a") (hb : b ≠ "n/a") (hab : a ≠ b) (c l : String)
    (hagree : ∀ j, j < i → (pySplit a ".")[j]? = (pySplit b ".")[j]?)
    (hc : (pySplit a ".")[i]? = some c) (hl : (pySplit b ".")[i]? = some l)
    (hne : c ≠ l) :
    compare_versions a b =
      Except.ok (if i = 0 then "major" else if i = 1 then "minor" else "patch") := by
  unfold compare_versions
  rw [if_neg (by simp [ha, hb]), if_neg hab]
  rw [cvLoop_firstDiff i _ _ 0 hagree c l hc hl hne]
  rcases i with _ | _ | _ | n
  · simp [sem_version]
  · simp [sem_version]
  · simp [sem_version]
  · exact absurd hi (by omega)

/-- C3 witness: the three worked examples of the spec. -/
theorem c3_first_diff_witness :
    compare_versions "1.0.0" "2.0.0" = Except.ok "major" ∧
    compare_versions "1.2.0" "1.3.0" = Except.ok "minor" ∧
    compare_versions "1.2.3" "1.2.4" = Except.ok "patch" := by
  refine ⟨?_, ?_, ?_⟩
  · have h := c3_first_diff "1.0.0" "2.0.0" 0 (by omega) (by decide) (by decide)
      (by decide) "1" "2" (fun j hj => absurd hj (by omega)) (by decide) (by decide)
      (by decide)
    simpa using h
  · have h := c3_first_diff "1.2.0" "1.3.0" 1 (by omega) (by decide) (by decide)
      (by decide) "2" "3" (fun j hj => by interval_cases j; decide) (by decide)
      (by decide) (by decide)
    simpa using h
  · have h := c3_first_diff "1.2.3" "1.2.4" 2 (by omega) (by decide) (by decide)
      (by decide) "3" "4" (fun j hj => by interval_cases j <;> decide) (by decide)
      (by decide) (by decide)
    simpa using h

/-- C6: for unequal non-sentinel versions whose zipped components all agree
while the component counts differ, the loop exhausts the shorter list
without finding a difference and the result is `"n/a"`. -/
theorem c6_prefix_exhausted (a b : String)
    (ha : a ≠ "n/a") (hb : b ≠ "n/a") (hab : a ≠ b)
    (hagree : ∀ p ∈ (pySplit a ".").zip (pySplit b "."), p.1 = p.2)
    (_hlen : (pySplit a ".").length ≠ (pySplit b ".").length) :
    compare_versions a b = Except.ok "n/a" := by
  unfold compare_versions
  rw [if_neg (by simp [ha, hb]), if_neg hab]
  exact cvLoop_allEq _ _ 0 hagree

/-- C6 witness: the documented edge case `1.2` versus `1.2.0`. -/
theorem c6_prefix_exhausted_witness :
    compare_versions "1.2" "1.2.0" = Except.ok "n/a" :=
  c6_prefix_exhausted "1.2" "1.2.0" (by decide) (by decide) (by decide)
    (by decide) (by decide)

/-- C10: `compare_versions` is symmetric — the classification (including a
raised `KeyError`) does not depend on which argument is the declared and
which the latest version. -/
theorem c10_symmetric (a b : String) : compare_versions a b = compare_versions b a := by
  unfold compare_versions
  by_cases h1 : a = "n/a" ∨ b = "n/a"
  · rw [if_pos h1, if_pos (Or.symm h1)]
  · rw [if_neg h1, if_neg (fun h => h1 (Or.symm h))]
    by_cases h2 : a = b
    · rw [if_pos h2, if_pos h2.symm]
    · rw [if_neg h2, if_neg (fun h => h2 h.symm)]
      exact cvLoop_comm _ _ 0

/-- C2 counterexample: a line with neither separator aborts the run with a
plain `IndexError` when `package_info[1]` is read — not with the
`MalformedRequirementError` the spec names, which the code never defines or
raises — and a line with no name before the separator does not fail at all:
it is processed with an empty package name. -/
theorem c2_counterexample :
    processLine latestNA "foo" = Except.error PyErr.indexError ∧
    PyErr.indexError ≠ PyErr.malformedRequirementError "foo" ∧
    processLine latestNA "==1.2.3" = Except.ok ["", "1.2.3", "n/a", "n/a"] :=
  ⟨by decide, by decide, by decide⟩

/-- C2 (amended): for every manifest line containing neither `"=="` nor
`" @ "`, processing raises an uncaught `IndexError` (the single-field split
has no second element), so the run aborts rather than silently skipping the
line. -/
theorem c2_no_separator_aborts (latest_of : String → String) (line : String)
    (h1 : pyContains line "==" = false) (h2 : pyContains line " @ " = false) :
    processLine latest_of line = Except.error PyErr.indexError := by
  have hpi : (if pyContains line "==" then pySplit line "=="
      else pySplit line " @ ") = [line] := by
    rw [h1]
    simp only [Bool.false_eq_true, if_false]
    exact pySplit_eq_self_of_not_contains line " @ " h2
  unfold processLine
  rw [hpi]

/-- C2 witness: a concrete separator-free line. -/
theorem c2_no_separator_aborts_witness :
    processLine latestNA "somepackage" = Except.error PyErr.indexError :=
  c2_no_separator_aborts latestNA "somepackage" (by decide) (by decide)

/-- C5 counterexample: a line with two occurrences of `"=="` splits into
three fields, not exactly two; and on a `"=="` line whose version field
starts with `"file"`, the declared version is not kept verbatim — the
reference rewrite of source lines 82-88 also fires in the `"=="` branch. -/
theorem c5_counterexample :
    pySplit "a==b==c" "==" = ["a", "b", "c"] ∧
    processLine latestNA "foo==file/foo-1.2.3.tar.gz" =
      Except.ok ["foo", "1.2.3", "n/a", "n/a"] :=
  ⟨by decide, by decide⟩

/-- C5 (amended): when splitting a manifest line on `"=="` yields exactly
two fields, they are the package name and the declared version, recoverable
verbatim (the line is exactly `name ++ "==" ++ version`); provided the
version field does not start with `"file"` or `"http"` (which would trigger
the reference rewrite), the report row is built from them unchanged. -/
theorem c5_eq_split_two_fields (latest_of : String → String) (line f0 f1 : String)
    (hsplit : pySplit line "==" = [f0, f1])
    (hf : pyStartswith f1 "file" = false) (hh : pyStartswith f1 "http" = false) :
    line = f0 ++ "==" ++ f1 ∧
    processLine latest_of line =
      Except.map (fun cmp => [f0, f1, latest_of f0, cmp])
        (compare_versions f1 (latest_of f0)) := by
  have hcont : pyContains line "==" = true := by
    cases hc : pyContains line "==" with
    | true => rfl
    | false =>
      rw [pySplit_eq_self_of_not_contains line "==" hc] at hsplit
      exact absurd hsplit (by simp)
  refine ⟨eq_append_of_pySplit_two line f0 f1 "==" (by decide) hsplit, ?_⟩
  have hpi : (if pyContains line "==" then pySplit line "=="
      else pySplit line " @ ") = [f0, f1] := by
    rw [hcont]
    simpa using hsplit
  unfold processLine
  rw [hpi]
  simp only [hf, hh, Bool.or_self, Bool.false_eq_true, if_false]
  cases hcv : compare_versions f1 (latest_of f0) with
  | error e => simp [Except.map]
  | ok cmp => simp [Except.map]

/-- C5 witness: the spec's example line `foo==1.2.3`. -/
theorem c5_eq_split_two_fields_witness :
    "foo==1.2.3" = "foo" ++ "==" ++ "1.2.3" ∧
    processLine latestNA "foo==1.2.3" = Except.ok ["foo", "1.2.3", "n/a", "n/a"] := by
  have h := c5_eq_split_two_fields latestNA "foo==1.2.3" "foo" "1.2.3"
    (by decide) (by decide) (by decide)
  exact ⟨h.1, by rw [h.2]; decide⟩

/-- C4 counterexample: for an `@`-reference that starts with neither
`"file"` nor `"http"`, the code performs no pattern match and no fallback —
the declared version is the raw reference, not the final path segment the
claim prescribes (which `specDeclared`, the spec's computation, would
give). -/
theorem c4_counterexample :
    processLine latestNA "foo @ /path/bar.whl" =
      Except.ok ["foo", "/path/bar.whl", "n/a", "n/a"] ∧
    specDeclared "foo" "/path/bar.whl" = "bar.whl" ∧
    ("/path/bar.whl" : String) ≠ "bar.whl" :=
  ⟨by decide, by decide, by decide⟩

/-- C4 (amended): for a manifest line splitting on `" @ "` into a name and
a reference that starts with `"file"` or `"http"`, the declared version is
exactly the spec's computation `specDeclared`: the captured
`<major>.<minor>.<patch>` group of the case-insensitive pattern
`<name>-<version>` (hyphens in the name also matching underscores) when the
pattern matches the reference, and the final path segment of the reference
otherwise.  References not starting with `"file"` or `"http"` are kept
verbatim.  The character-class hypothesis restricts the statement to names
whose characters the pattern treats as literals. -/
theorem c4_at_reference_declared (latest_of : String → String) (line f0 f1 : String)
    (hno : pyContains line "==" = false)
    (hsplit : pySplit line " @ " = [f0, f1])
    (href : pyStartswith f1 "file" = true ∨ pyStartswith f1 "http" = true)
    (_hchars : ∀ ch ∈ f0.data, ch.isAlphanum = true ∨ ch = '-' ∨ ch = '_') :
    line = f0 ++ " @ " ++ f1 ∧
    processLine latest_of line =
      Except.map (fun cmp => [f0, specDeclared f0 f1, latest_of f0, cmp])
        (compare_versions (specDeclared f0 f1) (latest_of f0)) := by
  refine ⟨eq_append_of_pySplit_two line f0 f1 " @ " (by decide) hsplit, ?_⟩
  have hpi : (if pyContains line "==" then pySplit line "=="
      else pySplit line " @ ") = [f0, f1] := by
    rw [hno]
    simp only [Bool.false_eq_true, if_false]
    exact hsplit
  have hguard : (pyStartswith f1 "file" || pyStartswith f1 "http") = true := by
    rcases href with h | h <;> simp [h]
  unfold processLine
  rw [hpi]
  simp only [hguard, if_true]
  have hsd : (match reSearchVersion f0.data f1.data with
      | some v => v
      | none => lastSegment f1) = specDeclared f0 f1 := rfl
  rw [hsd]
  cases hcv : compare_versions (specDeclared f0 f1) (latest_of f0) with
  | error e => simp [Except.map]
  | ok cmp => simp [Except.map]

/-- C4 witness: the spec's fallback example, a reference with no embedded
version, whose declared version is the trailing path segment. -/
theorem c4_at_reference_declared_witness :
    processLine latestNA "foo @ http://example.com/bar.whl" =
      Except.ok ["foo", "bar.whl", "n/a", "n/a"] := by
  have h := c4_at_reference_declared latestNA "foo @ http://example.com/bar.whl"
    "foo" "http://example.com/bar.whl" (by decide) (by decide)
    (Or.inr (by decide)) (by decide)
  rw [h.2]
  decide

/-- C9: whenever `compare_packages` produces a report, it is the fixed
header row followed by exactly one row per manifest line, and the data row
at position `i + 1` is the row computed for manifest line `i` — manifest
order, not completion order. -/
theorem c9_report_shape (latest_of : String → String) (packages : List String)
    (report : List (List String))
    (h : compare_packages_report latest_of packages = Except.ok report) :
    report.length = packages.length + 1 ∧
    report[0]? = some headerRow ∧
    ∀ i, i < packages.length → ∃ line row, packages[i]? = some line ∧
      processLine latest_of line = Except.ok row ∧ report[i + 1]? = some row := by
  unfold compare_packages_report at h
  cases hm : mapExcept (processLine latest_of) packages with
  | error e => rw [hm] at h; simp at h
  | ok rows =>
    rw [hm] at h
    simp only [Except.ok.injEq] at h
    subst h
    obtain ⟨hlen, hall⟩ := mapExcept_ok (processLine latest_of) packages rows hm
    refine ⟨by simp [hlen], by simp, ?_⟩
    intro i hi
    obtain ⟨a, b, h1, h2, h3⟩ := hall i hi
    exact ⟨a, b, h1, h2, by simpa using h3⟩

/-- C9 witness: the spec's end-to-end scenario — two manifest lines, mocked
index `latestExample`, giving the header plus two rows in manifest order. -/
theorem c9_report_shape_witness :
    ([["package", "version", "latest", "compare"],
      ["alpha", "1.0.0", "1.0.0", "match"],
      ["beta", "2.5.1", "3.0.0", "major"]] : List (List String)).length =
      (["alpha==1.0.0", "beta==2.5.1"] : List String).length + 1 ∧
    ([["package", "version", "latest", "compare"],
      ["alpha", "1.0.0", "1.0.0", "match"],
      ["beta", "2.5.1", "3.0.0", "major"]] : List (List String))[0]? =
      some headerRow :=
  ⟨(c9_report_shape latestExample ["alpha==1.0.0", "beta==2.5.1"]
      [["package", "version", "latest", "compare"],
       ["alpha", "1.0.0", "1.0.0", "match"],
       ["beta", "2.5.1", "3.0.0", "major"]] (by decide)).1,
   (c9_report_shape latestExample ["alpha==1.0.0", "beta==2.5.1"]
      [["package", "version", "latest", "compare"],
       ["alpha", "1.0.0", "1.0.0", "match"],
       ["beta", "2.5.1", "3.0.0", "major"]] (by decide)).2.1⟩

end DependencyCheck
